import Mathlib

/-!
Verification of the earnings-call data-acquisition layer.

The development shallowly embeds the data-layer modules of the repository
(`fmp-earnings.ts` and the transcript-provider module) in Lean 4.  JavaScript
runtime values are modelled by the inductive `JsValue`; JavaScript numbers
(IEEE doubles) are modelled as `JsNumber`, a rational value tagged finite, or
NaN, or a signed infinity.  Fractional binary rounding is abstracted away:
no verified property depends on it.  Stateful operations (HTTP requests,
file reads) are modelled by passing the externally observed outcomes as
explicit arguments, so every definition is executable.
-/

namespace EarningsSpec

/-- Model of a JavaScript number: a finite rational, NaN, or a signed
infinity.  `inf true` is negative infinity. -/
inductive JsNumber where
  | finite (val : Rat)
  | nan
  | inf (neg : Bool)
deriving DecidableEq, Repr

/-- Model of a JavaScript runtime value (the values that can flow out of
`JSON.parse` plus `undefined`). -/
inductive JsValue where
  | null
  | undefined
  | bool (b : Bool)
  | num (n : JsNumber)
  | str (s : String)
  | arr (elems : List JsValue)
  | obj (fields : List (String × JsValue))
deriving Repr

/-- JavaScript nullish test: true exactly for `null` and `undefined`. -/
def isNullish : JsValue → Bool
  | .null => true
  | .undefined => true
  | _ => false

/-- JavaScript `a ?? b`: the left value unless it is nullish. -/
def nullishOr (v d : JsValue) : JsValue :=
  if isNullish v then d else v

/-- JavaScript truthiness. -/
def jsTruthy : JsValue → Bool
  | .null => false
  | .undefined => false
  | .bool b => b
  | .num n =>
    match n with
    | .finite v => !(v == 0)
    | .nan => false
    | .inf _ => true
  | .str s => !(s == "")
  | .arr _ => true
  | .obj _ => true

/-- JavaScript `typeof v === "object"`: true for `null`, arrays and
plain objects. -/
def typeofObject : JsValue → Bool
  | .null => true
  | .arr _ => true
  | .obj _ => true
  | _ => false

/-- First field with the given name in an object field list.  Witness
objects in this file never carry duplicate keys, matching values produced
by `JSON.parse`. -/
def getField : List (String × JsValue) → String → Option JsValue
  | [], _ => none
  | (k, v) :: rest, name => if k = name then some v else getField rest name

/-- Property read `v[name]` on a value already known to be non-nullish:
the field value on objects, `undefined` otherwise (and `undefined` for a
missing field). -/
def jsField (v : JsValue) (name : String) : JsValue :=
  match v with
  | .obj fields => (getField fields name).getD .undefined
  | _ => .undefined

/-- Property read `v[name]` as executed by JavaScript: throws a
`TypeError` (modelled as `Except.error`) when the receiver is nullish. -/
def propAccess (v : JsValue) (name : String) : Except Unit JsValue :=
  if isNullish v then .error () else .ok (jsField v name)

/-- Decimal rendering of a `JsNumber`, as JavaScript number-to-string.
Integral values render exactly; non-integral rationals render in Lean
rational notation, an abstraction of decimal notation that no verified
claim depends on. -/
def numToString (n : JsNumber) : String :=
  match n with
  | .finite v => if v.den = 1 then toString v.num else toString v
  | .nan => "NaN"
  | .inf false => "Infinity"
  | .inf true => "-Infinity"

mutual

/-- JavaScript `String(v)` conversion. -/
def jsToString : JsValue → String
  | .null => "null"
  | .undefined => "undefined"
  | .bool b => if b then "true" else "false"
  | .num n => numToString n
  | .str s => s
  | .arr xs => String.intercalate "," (jsArrayParts xs)
  | .obj _ => "[object Object]"

/-- Element strings for `Array.prototype.join`: `null` and `undefined`
elements render as the empty string. -/
def jsArrayParts : List JsValue → List String
  | [] => []
  | .null :: rest => "" :: jsArrayParts rest
  | .undefined :: rest => "" :: jsArrayParts rest
  | x :: rest => jsToString x :: jsArrayParts rest

end

/-- JavaScript `String.prototype.trim`: drop whitespace from both ends.
Implemented by structural recursion over the character list so that
concrete witnesses evaluate inside the kernel. -/
def jsTrim (s : String) : String :=
  String.mk (((s.toList.dropWhile Char.isWhitespace).reverse.dropWhile
    Char.isWhitespace).reverse)

/-- JavaScript `String.prototype.toUpperCase` on the ASCII range. -/
def jsUpper (s : String) : String :=
  String.mk (s.toList.map Char.toUpper)

/-- Splitting on a single-character separator, on character lists:
`splitOnChar '-' "a--b"` is `["a", "", "b"]`, and the empty input yields
one empty group, matching `"".split("-")`. -/
def splitOnChar (sep : Char) : List Char → List (List Char)
  | [] => [[]]
  | c :: rest =>
    let r := splitOnChar sep rest
    if c = sep then [] :: r
    else
      match r with
      | [] => [[c]]
      | g :: gs => (c :: g) :: gs

/-- JavaScript `callDate.split("-")`. -/
def jsSplitDash (s : String) : List String :=
  (splitOnChar '-' s.toList).map String.mk

/-- Numeric value of a digit list (most significant first). -/
def digitsVal (cs : List Char) : Nat :=
  cs.foldl (fun acc c => acc * 10 + (c.toNat - 48)) 0

/-- Parse an unsigned decimal literal (digits, optionally a dot and more
digits).  Models the decimal fragment of ECMAScript StringToNumber;
exponents and hex or binary prefixes are abstracted to NaN, which no
verified claim depends on. -/
def parseUnsignedDec (cs : List Char) : Option Rat :=
  let ipart := cs.takeWhile Char.isDigit
  let rest := cs.dropWhile Char.isDigit
  match rest with
  | [] => if ipart.isEmpty then none else some ((digitsVal ipart : Nat) : Rat)
  | '.' :: frac =>
    if frac.all Char.isDigit then
      if ipart.isEmpty && frac.isEmpty then none
      else some (((digitsVal ipart : Nat) : Rat)
        + ((digitsVal frac : Nat) : Rat) / ((10 ^ frac.length : Nat) : Rat))
    else none
  | _ => none

/-- ECMAScript StringToNumber on the decimal fragment: trimmed empty
string is zero, `Infinity` with optional sign, decimal literals, and
NaN for everything else. -/
def strToNumber (s : String) : JsNumber :=
  let t := jsTrim s
  if t = "" then .finite 0
  else
    let cs := t.toList
    match cs with
    | '-' :: rest =>
      if rest = "Infinity".toList then .inf true
      else
        match parseUnsignedDec rest with
        | some q => .finite (-q)
        | none => .nan
    | '+' :: rest =>
      if rest = "Infinity".toList then .inf false
      else
        match parseUnsignedDec rest with
        | some q => .finite q
        | none => .nan
    | _ =>
      if cs = "Infinity".toList then .inf false
      else
        match parseUnsignedDec cs with
        | some q => .finite q
        | none => .nan

/-- JavaScript `Number(v)` coercion.  Arrays convert through their joined
string form, plain objects through `"[object Object]"` (hence NaN),
matching ToPrimitive with the default `toString`. -/
def jsToNumber (v : JsValue) : JsNumber :=
  match v with
  | .null => .finite 0
  | .undefined => .nan
  | .bool b => .finite (if b then 1 else 0)
  | .num n => n
  | .str s => strToNumber s
  | .arr xs => strToNumber (jsToString (.arr xs))
  | .obj _ => strToNumber "[object Object]"

/-- JavaScript `Number.isFinite`. -/
def isFiniteNum : JsNumber → Bool
  | .finite _ => true
  | _ => false

/-! ### fmp-earnings.ts, utilities -/

/-- Model of `toNumberOrNull` (fmp-earnings.ts): null and undefined map to null;
otherwise `Number(v)` is kept when finite and replaced by null when not. -/
def toNumberOrNull (v : JsValue) : Option JsNumber :=
  match v with
  | .null => none
  | .undefined => none
  | _ => if isFiniteNum (jsToNumber v) then some (jsToNumber v) else none

/-- Model of `res.ok` of the Fetch API: status in the 2xx range. -/
def statusOk (status : Nat) : Bool :=
  200 ≤ status && status ≤ 299

/-- Model of `isErrorEnvelope` (fmp-earnings.ts): a non-null non-array object with
an `Error Message` key. -/
def isErrorEnvelope (body : JsValue) : Bool :=
  match body with
  | .obj fields => fields.any (fun p => p.1 = "Error Message")
  | _ => false

/-! ### fmp-earnings.ts, API-key redaction

`fetchJson` computes `safeUrl = url.replace(/apikey=[^&]+/, "apikey=REDACTED")`
before building any error message.  The regex replace substitutes the
leftmost position where the text `apikey=` is followed by at least one
character other than `&`; the matched span extends through the maximal run
of non-`&` characters. -/

/-- The literal pattern `apikey=` as a character list. -/
def apikeyChars : List Char := ['a', 'p', 'i', 'k', 'e', 'y', '=']

/-- The replacement text `apikey=REDACTED` as a character list. -/
def redactedChars : List Char :=
  ['a', 'p', 'i', 'k', 'e', 'y', '=', 'R', 'E', 'D', 'A', 'C', 'T', 'E', 'D']

/-- Does the regex `apikey=[^&]+` match at the head of this character
list? -/
def matchHere (cs : List Char) : Bool :=
  decide (cs.take 7 = apikeyChars) &&
    (match cs.drop 7 with
     | [] => false
     | c :: _ => decide (c ≠ '&'))

/-- One-shot (non-global) regex replacement of `apikey=[^&]+` by
`apikey=REDACTED`: the leftmost match is replaced, everything else is
kept. -/
def redactChars : List Char → List Char
  | [] => []
  | c :: cs =>
    if matchHere (c :: cs) then
      redactedChars ++ ((c :: cs).drop 7).dropWhile (fun ch => ch ≠ '&')
    else
      c :: redactChars cs

/-- Model of `url.replace(/apikey=[^&]+/, "apikey=REDACTED")`. -/
def redactApiKey (url : String) : String :=
  String.mk (redactChars url.toList)

/-! ### fmp-earnings.ts, fetchJson

The retry loop is modelled as a function of the sequence of outcomes the
network would deliver for attempt 1, 2, 3 (`outcomes i` is the outcome of
attempt `i + 1`).  Sleeping and backoff timing are irrelevant to the
verified claims and are not modelled.  The function returns the final
result together with the number of HTTP attempts consumed. -/

/-- What a single `fetch(url)` attempt can produce: a transport-level
throw, or an HTTP response with a status, a status text and a body
(`none` models a body that fails JSON parsing). -/
inductive AttemptOutcome where
  | transportError (errText : String)
  | response (status : Nat) (statusText : String) (body : Option JsValue)

/-- The outcomes after which `fetchJson` retries: a transport failure, or
HTTP 429 or 503. -/
def retryable : AttemptOutcome → Bool
  | .transportError _ => true
  | .response status _ _ => status = 429 || status = 503

/-- Failure classification of `fetchJson`. -/
inductive ErrorKind where
  | network
  | rateLimited
  | http
  | nonJson
  | api
  | exhausted
deriving DecidableEq, Repr

/-- Result of `fetchJson`: parsed JSON, or a classified error carrying the
exact propagated message. -/
inductive FetchResult where
  | ok (v : JsValue)
  | error (kind : ErrorKind) (msg : String)

/-- The result `fetchJson` produces when attempt number `attempt` is the
final one for outcome `o` (either `o` is not retryable, or the attempt
budget is exhausted).  Message texts follow fmp-earnings.ts verbatim. -/
def terminalResult (safeUrl : String) (attempt : Nat) (o : AttemptOutcome) : FetchResult :=
  match o with
  | .transportError errText =>
    .error .network s!"[FMP] Network error after {attempt} attempts — {safeUrl}: {errText}"
  | .response status statusText body =>
    if status = 429 || status = 503 then
      .error .rateLimited s!"[FMP] Rate-limited ({status}) after 3 attempts — {safeUrl}"
    else if !(statusOk status) then
      .error .http s!"[FMP] HTTP {status} {statusText} — {safeUrl}"
    else
      match body with
      | none => .error .nonJson s!"[FMP] Non-JSON response from {safeUrl}"
      | some v =>
        if isErrorEnvelope v then
          let m := jsToString (jsField v "Error Message")
          .error .api s!"[FMP] API error: {m} — {safeUrl}"
        else .ok v

/-- The retry loop of `fetchJson`: at attempt `attempt` with `fuel`
attempts still allowed, retry on a retryable outcome while `attempt < 3`,
otherwise stop with `terminalResult`.  The fuel-zero case corresponds to
the unreachable throw after the loop. -/
def fetchJsonAux (safeUrl : String) (outcomes : Nat → AttemptOutcome) :
    Nat → Nat → FetchResult × Nat
  | 0, attempt =>
    (.error .exhausted s!"[FMP] Exhausted 3 attempts — {safeUrl}", attempt - 1)
  | fuel + 1, attempt =>
    let o := outcomes (attempt - 1)
    if retryable o && attempt < 3 then
      fetchJsonAux safeUrl outcomes fuel (attempt + 1)
    else
      (terminalResult safeUrl attempt o, attempt)

/-- Model of `fetchJson` (fmp-earnings.ts): three total attempts starting at
attempt 1, with error messages built from the redacted URL. -/
def fetchJson (url : String) (outcomes : Nat → AttemptOutcome) : FetchResult × Nat :=
  fetchJsonAux (redactApiKey url) outcomes 3 1

/-! ### fmp-earnings.ts, fetchFmpEarningsCalendar (normalisation step)

The calendar fetcher is modelled from the point where the parsed JSON
response `data` is in hand; the HTTP part is `fetchJson` above. -/

/-- Normalised earnings event (type `EarningsEvent` of fmp-earnings.ts). -/
structure EarningsEvent where
  symbol : String
  reportDate : String
  epsActual : Option JsNumber
  epsEstimated : Option JsNumber
  revenueActual : Option JsNumber
  revenueEstimated : Option JsNumber
  raw : JsValue

/-- The trimmed stringified `symbol` field of a calendar record. -/
def calSym (item : JsValue) : String :=
  jsTrim (jsToString (nullishOr (jsField item "symbol") (.str "")))

/-- The trimmed stringified `date` field of a calendar record. -/
def calDate (item : JsValue) : String :=
  jsTrim (jsToString (nullishOr (jsField item "date") (.str "")))

/-- Per-record normalisation in the calendar loop.  A nullish list element
makes the property read `item["symbol"]` throw a TypeError (`Except.error`);
otherwise a record whose trimmed symbol or date is empty is skipped
(`ok none`), and any other record is turned into an event. -/
def processCalendarItem (item : JsValue) : Except Unit (Option EarningsEvent) :=
  if isNullish item then .error ()
  else if calSym item = "" ∨ calDate item = "" then .ok none
  else
    .ok (some
      { symbol := calSym item
        reportDate := calDate item
        epsActual := toNumberOrNull (jsField item "epsActual")
        epsEstimated := toNumberOrNull (jsField item "epsEstimated")
        revenueActual := toNumberOrNull (jsField item "revenueActual")
        revenueEstimated := toNumberOrNull (jsField item "revenueEstimated")
        raw := item })

/-- The record loop of `fetchFmpEarningsCalendar`, accumulating events in
order. -/
def calendarItemsLoop : List JsValue → Except Unit (List EarningsEvent)
  | [] => .ok []
  | item :: rest =>
    match processCalendarItem item with
    | .error e => .error e
    | .ok none => calendarItemsLoop rest
    | .ok (some ev) =>
      match calendarItemsLoop rest with
      | .error e => .error e
      | .ok evs => .ok (ev :: evs)

/-- Failure modes of the normalisation stage: a non-array response, or a
TypeError raised while reading properties of a nullish record. -/
inductive CalendarError where
  | notArray
  | itemTypeError
deriving DecidableEq, Repr

/-- Model of `fetchFmpEarningsCalendar` from the parsed response onwards: reject a
non-array payload, then run the record loop. -/
def fmpCalendarEvents (data : JsValue) : Except CalendarError (List EarningsEvent) :=
  match data with
  | .arr items =>
    match calendarItemsLoop items with
    | .error _ => .error .itemTypeError
    | .ok evs => .ok evs
  | _ => .error .notArray

/-! ### fmp-earnings.ts, buildSymbolToExchangeMap and the disk cache -/

/-- JavaScript `Map.set` on an association list: replace the value at an
existing key in place (keeping insertion order), else append. -/
def mapSet (m : List (String × String)) (k v : String) : List (String × String) :=
  if m.any (fun p => p.1 = k) then
    m.map (fun p => if p.1 = k then (k, v) else p)
  else m ++ [(k, v)]

/-- Uppercase-then-trim normalisation applied by the builder to the
stringified symbol and exchange values (`String(x).toUpperCase().trim()`). -/
def upperTrim (v : JsValue) : String :=
  jsTrim (jsUpper (jsToString v))

/-- The exchange-code source value of a stock-list record: the `??`
cascade over `exchangeShortName`, `exchange_short_name`, `exchange`,
defaulting to the empty string.  The cascade takes the first non-nullish
value, empty or not. -/
def stockExchSrc (item : JsValue) : JsValue :=
  nullishOr (jsField item "exchangeShortName")
    (nullishOr (jsField item "exchange_short_name")
      (nullishOr (jsField item "exchange") (.str "")))

/-- Normalised symbol of a stock-list record. -/
def stockSym (item : JsValue) : String :=
  upperTrim (nullishOr (jsField item "symbol") (.str ""))

/-- Normalised exchange code of a stock-list record. -/
def stockExch (item : JsValue) : String :=
  upperTrim (stockExchSrc item)

/-- Per-record step of the stock-list loop.  A nullish element makes the
property read throw (`Except.error`); a record with an empty normalised
symbol or exchange is skipped (`ok none`); otherwise the pair is
inserted. -/
def processStockItem (item : JsValue) : Except Unit (Option (String × String)) :=
  if isNullish item then .error ()
  else if stockSym item ≠ "" ∧ stockExch item ≠ "" then
    .ok (some (stockSym item, stockExch item))
  else .ok none

/-- The stock-list record loop, folding `Map.set` over the records. -/
def stockItemsLoop : List JsValue → List (String × String) →
    Except Unit (List (String × String))
  | [], m => .ok m
  | item :: rest, m =>
    match processStockItem item with
    | .error e => .error e
    | .ok none => stockItemsLoop rest m
    | .ok (some (s, e)) => stockItemsLoop rest (mapSet m s e)

/-- Failure modes of the exchange-map build. -/
inductive BuildError where
  | cacheTypeError
  | notArray
  | emptySnapshot
  | zeroEntries
  | itemTypeError
deriving DecidableEq, Repr

/-- The network (cache-miss) path of `buildSymbolToExchangeMap` from the
parsed stock-list response onwards: reject non-array and empty payloads,
run the record loop, and reject an empty resulting map. -/
def buildFromNetwork (data : JsValue) : Except BuildError (List (String × String)) :=
  match data with
  | .arr items =>
    if items.length = 0 then .error .emptySnapshot
    else
      match stockItemsLoop items [] with
      | .error _ => .error .itemTypeError
      | .ok m => if m.length = 0 then .error .zeroEntries else .ok m
  | _ => .error .notArray

/-- State of the cache file as observed by `tryLoadCache`: the read fails
(absent or unreadable), the content fails `JSON.parse`, or it parses to a
value. -/
inductive CacheFile where
  | absent
  | notJson
  | json (v : JsValue)

/-- 7 days in milliseconds (`CACHE_TTL_MS`). -/
def CACHE_TTL_MS : Int := 604800000

/-- The staleness test `Date.now() - payload.builtAt > CACHE_TTL_MS` under
IEEE semantics: false when `builtAt` is NaN or positive infinity, true for
negative infinity. -/
def isStale (now : Int) (builtAt : JsNumber) : Bool :=
  match builtAt with
  | .finite b => decide ((now : Rat) - b > (CACHE_TTL_MS : Rat))
  | .nan => false
  | .inf neg => neg

/-- Destructuring `({ symbol, exchange }) => [symbol, exchange]` on one
entry: throws a TypeError on a nullish entry, otherwise reads the two
properties (yielding `undefined` for anything without them). -/
def destructureEntry (e : JsValue) : Except Unit (JsValue × JsValue) :=
  if isNullish e then .error ()
  else .ok (jsField e "symbol", jsField e "exchange")

/-- Destructuring of the whole `entries` list. -/
def destructureEntries : List JsValue → Except Unit (List (JsValue × JsValue))
  | [] => .ok []
  | e :: rest =>
    match destructureEntry e with
    | .error err => .error err
    | .ok p =>
      match destructureEntries rest with
      | .error err => .error err
      | .ok ps => .ok (p :: ps)

/-- A successful cache load: the entry pairs and the stored timestamp. -/
structure CacheHit where
  entries : List (JsValue × JsValue)
  builtAt : JsNumber

/-- Model of `tryLoadCache` (fmp-earnings.ts): missing or unreadable file is a miss,
unparseable JSON is a miss, a payload whose `builtAt` is not a number or
whose `entries` is not an array is a miss, and a stale `builtAt` is a miss.
Reading `payload.builtAt` on a nullish payload throws (the `typeof` check
sits outside both try blocks), as does destructuring a nullish entry. -/
def tryLoadCache (file : CacheFile) (now : Int) : Except Unit (Option CacheHit) :=
  match file with
  | .absent => .ok none
  | .notJson => .ok none
  | .json payload =>
    match propAccess payload "builtAt" with
    | .error e => .error e
    | .ok builtAtV =>
      match builtAtV with
      | .num b =>
        match jsField payload "entries" with
        | .arr es =>
          if isStale now b then .ok none
          else
            match destructureEntries es with
            | .error e => .error e
            | .ok pairs => .ok (some { entries := pairs, builtAt := b })
        | _ => .ok none
      | _ => .ok none

/-- Which path produced the symbol-to-exchange map: the disk cache (zero
network calls) or a fresh stock-list fetch. -/
inductive BuildOutcome where
  | fromCache (m : List (JsValue × JsValue))
  | fromNetwork (m : List (String × String))

/-- Model of `buildSymbolToExchangeMap`: return the cached map on a cache hit,
otherwise build from the network snapshot (`data` is the parsed stock-list
response the fetch would deliver).  A TypeError escaping `tryLoadCache`
propagates.  Credential validation, logging and the best-effort cache
write are outside every verified claim and not modelled. -/
def buildSymbolToExchangeMap (file : CacheFile) (now : Int) (data : JsValue) :
    Except BuildError BuildOutcome :=
  match tryLoadCache file now with
  | .error _ => .error .cacheTypeError
  | .ok (some hit) => .ok (.fromCache hit.entries)
  | .ok none =>
    match buildFromNetwork data with
    | .error e => .error e
    | .ok m => .ok (.fromNetwork m)

/-! ### fmp-earnings.ts, filterNyseNasdaq -/

/-- The target exchange set `NYSE_NASDAQ`. -/
def NYSE_NASDAQ : List String := ["NYSE", "NASDAQ"]

/-- Model of `Map.get` on the association-list model of `Map<string, string>`. -/
def mapGet (m : List (String × String)) (k : String) : Option String :=
  (m.find? (fun p => p.1 = k)).map (fun p => p.2)

/-- The keep-or-drop predicate of `filterNyseNasdaq` for one event:
uppercase the symbol, look it up; unknown symbols are kept exactly when
`keepUnknown` is set, known symbols are kept exactly when their exchange
is in the target set. -/
def keepEvent (m : List (String × String)) (keepUnknown : Bool)
    (ev : EarningsEvent) : Bool :=
  match mapGet m (jsUpper ev.symbol) with
  | none => keepUnknown
  | some exch => NYSE_NASDAQ.contains exch

/-- Model of `filterNyseNasdaq` (fmp-earnings.ts).  The logging counters do not
affect the returned list and are not modelled. -/
def filterNyseNasdaq (events : List EarningsEvent)
    (m : List (String × String)) (keepUnknown : Bool) : List EarningsEvent :=
  events.filter (keepEvent m keepUnknown)

/-! ### transcript-provider module -/

/-- Normalised transcript (type `Transcript`). -/
structure Transcript where
  symbol : String
  callDate : String
  text : String
  raw : JsValue

/-- The two outcome classes the providers distinguish:
`TranscriptNotFoundError` with its three constructor fields, and every
other thrown error, carrying its message. -/
inductive TranscriptError where
  | notFound (symbol : String) (callDate : String) (providerName : String)
  | generic (msg : String)
deriving DecidableEq, Repr

/-- JavaScript `parseInt(s, 10)`: trim, optional sign, value of the
leading digit run (trailing characters ignored), NaN (`none`) when no
leading digit exists. -/
def parseIntJs (s : String) : Option Int :=
  let cs := (jsTrim s).toList
  match cs with
  | '-' :: rest =>
    let digits := rest.takeWhile Char.isDigit
    if digits.isEmpty then none else some (-(digitsVal digits : Int))
  | '+' :: rest =>
    let digits := rest.takeWhile Char.isDigit
    if digits.isEmpty then none else some ((digitsVal digits : Int))
  | _ =>
    let digits := cs.takeWhile Char.isDigit
    if digits.isEmpty then none else some ((digitsVal digits : Int))

/-- Model of `parseInt(parts[i]!, 10)` where `parts[i]` may be undefined:
`parseInt(undefined)` coerces to the string `"undefined"`, which has no
leading digits, hence NaN. -/
def parseIntAt (parts : List String) (i : Nat) : Option Int :=
  match parts.get? i with
  | some s => parseIntJs s
  | none => none

/-- The year and month read by `dateToFiscalYearQuarter` from
`callDate.split("-")`. -/
def parsedYearMonth (callDate : String) : Option Int × Option Int :=
  let parts := jsSplitDash callDate
  (parseIntAt parts 0, parseIntAt parts 1)

/-- Model of `dateToFiscalYearQuarter` (transcript-provider module): months up to 3
report quarter 4 of the prior year, up to 6 quarter 1, up to 9 quarter 2,
everything else quarter 3 of the same year; a NaN year or month throws. -/
def dateToFiscalYearQuarter (callDate : String) : Except String (Int × Nat) :=
  match parsedYearMonth callDate with
  | (some year, some month) =>
    if month ≤ 3 then .ok (year - 1, 4)
    else if month ≤ 6 then .ok (year, 1)
    else if month ≤ 9 then .ok (year, 2)
    else .ok (year, 3)
  | _ =>
    .error s!"[TranscriptProvider] Invalid callDate \"{callDate}\" — expected ISO-8601 (YYYY-MM-DD)."

/-- The `${year}Q${quarter}` tag used as the `callDate` field of the
not-found error thrown inside `extractNinjasText`. -/
def fiscalTag (year : Int) (quarter : Nat) : String :=
  s!"{year}Q{quarter}"

/-- Message of the TypeError raised when the speaker-turn loop reads
`turn["speaker"]` on a nullish turn. -/
def turnTypeErrorMsg : String :=
  "TypeError: Cannot read properties of null (reading speaker)"

/-- The speaker-turn loop of `extractNinjasText`: for each turn, the
trimmed `speaker` (defaulting to `Unknown`) and trimmed `text`; turns with
non-empty text contribute a `speaker: text` line.  A nullish turn makes the
property read throw. -/
def collectTurnLines : List JsValue → Except TranscriptError (List String)
  | [] => .ok []
  | turn :: rest =>
    if isNullish turn then .error (.generic turnTypeErrorMsg)
    else
      let speaker := jsTrim (jsToString (nullishOr (jsField turn "speaker") (.str "Unknown")))
      let text := jsTrim (jsToString (nullishOr (jsField turn "text") (.str "")))
      match collectTurnLines rest with
      | .error e => .error e
      | .ok lines => .ok (if text ≠ "" then (speaker ++ ": " ++ text) :: lines else lines)

/-- The trimmed stringified `transcript` field used by the free-tier
path. -/
def ninjasFreeTextVal (raw : JsValue) : String :=
  jsTrim (jsToString (nullishOr (jsField raw "transcript") (.str "")))

/-- The free-tier fallback of `extractNinjasText`: the trimmed
`transcript` field when non-empty, otherwise the not-found error carrying
the fiscal tag. -/
def ninjasFreeText (raw : JsValue) (symbol : String) (year : Int) (quarter : Nat) :
    Except TranscriptError String :=
  if ninjasFreeTextVal raw ≠ "" then .ok (ninjasFreeTextVal raw)
  else .error (.notFound symbol (fiscalTag year quarter) "API Ninjas")

/-- Model of `extractNinjasText` (transcript-provider module): the premium
speaker-turn path when `transcript_split` (or `transcript_by_speaker`) is
a non-empty array and yields at least one line, else the free plain-text
path, else the not-found error. -/
def extractNinjasText (raw : JsValue) (symbol : String) (year : Int) (quarter : Nat) :
    Except TranscriptError String :=
  let split := nullishOr (jsField raw "transcript_split") (jsField raw "transcript_by_speaker")
  match split with
  | .arr turns =>
    if turns.length > 0 then
      match collectTurnLines turns with
      | .error e => .error e
      | .ok lines =>
        if lines.length > 0 then .ok (String.intercalate "\n\n" lines)
        else ninjasFreeText raw symbol year quarter
    else ninjasFreeText raw symbol year quarter
  | _ => ninjasFreeText raw symbol year quarter

/-- The HTTP response a provider fetch observes: a status plus the parsed
body (`none` models a body that fails JSON parsing). -/
structure HttpResponse where
  status : Nat
  body : Option JsValue

/-- Model of `Array.isArray(data) ? data[0] : data`: the first element of an array
(undefined when empty), the value itself otherwise. -/
def ninjasSelectRaw (data : JsValue) : JsValue :=
  match data with
  | .arr xs => xs.getD 0 .undefined
  | _ => data

/-- The body of `NinjasTranscriptProvider.fetchTranscript` after the
fiscal period has been resolved: treat 404 as not-found, other non-2xx as
generic HTTP errors, an unparseable body as a generic error, a falsy or
non-object payload as not-found, and otherwise extract the text. -/
def ninjasFetchSteps (symbol callDate : String) (res : HttpResponse)
    (year : Int) (quarter : Nat) : Except TranscriptError Transcript :=
  if res.status = 404 then .error (.notFound symbol callDate "API Ninjas")
  else if !(statusOk res.status) then
    .error (.generic ("[API Ninjas] HTTP " ++ toString res.status ++ " for " ++ symbol
      ++ " " ++ toString year ++ "Q" ++ toString quarter ++ "."))
  else
    match res.body with
    | none =>
      .error (.generic s!"[API Ninjas] Non-JSON response for {symbol} {year}Q{quarter}.")
    | some data =>
      let raw := ninjasSelectRaw data
      if !(jsTruthy raw) || !(typeofObject raw) then
        .error (.notFound symbol callDate "API Ninjas")
      else
        match extractNinjasText raw symbol year quarter with
        | .error e => .error e
        | .ok text =>
          .ok { symbol := jsUpper symbol, callDate := callDate, text := text, raw := raw }

/-- Model of `NinjasTranscriptProvider.fetchTranscript` as a function of the
requested symbol, the call date and the observed HTTP response: map the
call date to a fiscal period (an invalid date throws before any request),
then run the response handling. -/
def ninjasFetchTranscript (symbol callDate : String) (res : HttpResponse) :
    Except TranscriptError Transcript :=
  match dateToFiscalYearQuarter callDate with
  | .error e => .error (.generic e)
  | .ok (year, quarter) => ninjasFetchSteps symbol callDate res year quarter

/-! ## Claim C1: the exchange filter keeps exactly the right events -/

/-- The keep predicate, characterised: an event is kept iff its uppercased
symbol maps to NYSE or NASDAQ, or is absent from the map while
`keepUnknown` is set. -/
lemma keepEvent_true_iff (m : List (String × String)) (k : Bool) (ev : EarningsEvent) :
    keepEvent m k ev = true ↔
      ((∃ exch, mapGet m (jsUpper ev.symbol) = some exch ∧ (exch = "NYSE" ∨ exch = "NASDAQ")) ∨
        (k = true ∧ mapGet m (jsUpper ev.symbol) = none)) := by
  unfold keepEvent
  cases h : mapGet m (jsUpper ev.symbol) with
  | none => simp [h]
  | some exch =>
    simp only [h, NYSE_NASDAQ]
    constructor
    · intro hc
      refine Or.inl ⟨exch, rfl, ?_⟩
      have : exch ∈ ["NYSE", "NASDAQ"] := by
        have := List.elem_iff.mp hc
        simpa using this
      simpa using this
    · rintro (⟨e, he, hor⟩ | ⟨_, hnone⟩)
      · cases he
        apply List.elem_iff.mpr
        rcases hor with h1 | h1 <;> simp [h1]
      · cases hnone

/-- C1: for every event list, exchange map and `keepUnknown` flag, the
Exchange Filter keeps exactly the events whose uppercased symbol maps to
NYSE or NASDAQ, plus — only when `keepUnknown` is true — the events whose
uppercased symbol is absent from the map; events mapped to any other
exchange are dropped for every flag value, absent events are dropped when
the flag is false, and kept events are retained unchanged and in order
(the output is a sublist of the input). -/
theorem filterNyseNasdaq_keeps_exactly (events : List EarningsEvent)
    (m : List (String × String)) (keepUnknown : Bool) (ev : EarningsEvent) :
    (ev ∈ filterNyseNasdaq events m keepUnknown ↔
      ev ∈ events ∧
        ((∃ exch, mapGet m (jsUpper ev.symbol) = some exch ∧ (exch = "NYSE" ∨ exch = "NASDAQ")) ∨
          (keepUnknown = true ∧ mapGet m (jsUpper ev.symbol) = none))) ∧
    (filterNyseNasdaq events m keepUnknown).Sublist events := by
  constructor
  · rw [filterNyseNasdaq, List.mem_filter, keepEvent_true_iff]
  · exact List.filter_sublist events

/-- Witness for C1 at a concrete event and map: an event whose uppercased
symbol maps to NASDAQ is kept. -/
theorem filterNyseNasdaq_keeps_exactly_witness :
    (⟨"aapl", "2026-02-25", none, none, none, none, JsValue.null⟩ : EarningsEvent) ∈
      filterNyseNasdaq [⟨"aapl", "2026-02-25", none, none, none, none, JsValue.null⟩]
        [("AAPL", "NASDAQ")] false :=
  (filterNyseNasdaq_keeps_exactly
      [⟨"aapl", "2026-02-25", none, none, none, none, JsValue.null⟩]
      [("AAPL", "NASDAQ")] false
      ⟨"aapl", "2026-02-25", none, none, none, none, JsValue.null⟩).1.mpr
    ⟨List.mem_singleton.mpr rfl, Or.inl ⟨"NASDAQ", rfl, Or.inr rfl⟩⟩

/-! ## Claim C10: the exchange filter is idempotent -/

/-- C10: with `keepUnknown` false, filtering an already-filtered list with
the same map returns it unchanged. -/
theorem filterNyseNasdaq_idempotent (events : List EarningsEvent)
    (m : List (String × String)) :
    filterNyseNasdaq (filterNyseNasdaq events m false) m false =
      filterNyseNasdaq events m false := by
  unfold filterNyseNasdaq
  rw [List.filter_filter]
  congr 1
  funext ev
  exact Bool.and_self (keepEvent m false ev)

/-! ## Claim C2: numeric coercion yields a finite number or null -/

/-- A number passing `Number.isFinite` is a finite value. -/
lemma isFiniteNum_true_iff (n : JsNumber) :
    isFiniteNum n = true ↔ ∃ q, n = .finite q := by
  cases n <;> simp [isFiniteNum]

/-- C2 counterexample: the empty string does not coerce to null.
JavaScript evaluates `Number("")` to `0`, which is finite, so
`toNumberOrNull("")` returns `0`; the claim states it becomes null. -/
theorem toNumberOrNull_empty_string_is_zero :
    toNumberOrNull (JsValue.str "") = some (JsNumber.finite 0) ∧
      toNumberOrNull (JsValue.str "") ≠ none := by
  refine ⟨rfl, ?_⟩
  intro h
  rw [show toNumberOrNull (JsValue.str "") = some (JsNumber.finite 0) from rfl] at h
  exact Option.noConfusion h

/-- Either the input is nullish (null result) or the result is the
finiteness-guarded `Number` conversion. -/
lemma toNumberOrNull_shape (v : JsValue) :
    toNumberOrNull v = none ∨
      toNumberOrNull v =
        if isFiniteNum (jsToNumber v) then some (jsToNumber v) else none := by
  cases v <;> simp [toNumberOrNull]

/-- C2 as amended: for every input value the coercion returns either a
finite number or null — never NaN or an infinity — and every input whose
`Number` conversion is not finite (non-numeric strings, NaN, infinities)
coerces to null; the empty string, however, coerces to the finite number
0, not to null. -/
theorem toNumberOrNull_finite_or_null :
    (∀ v : JsValue,
        (toNumberOrNull v = none ∨ ∃ q : Rat, toNumberOrNull v = some (JsNumber.finite q)) ∧
        (isFiniteNum (jsToNumber v) = false → toNumberOrNull v = none)) ∧
      toNumberOrNull (JsValue.str "") = some (JsNumber.finite 0) := by
  refine ⟨fun v => ⟨?_, ?_⟩, rfl⟩
  · rcases toNumberOrNull_shape v with hk | hk
    · exact Or.inl hk
    · cases hf : isFiniteNum (jsToNumber v)
      · rw [hf] at hk
        simp only [Bool.false_eq_true, if_false] at hk
        exact Or.inl hk
      · obtain ⟨q, hq⟩ := (isFiniteNum_true_iff _).mp hf
        rw [hf] at hk
        simp only [if_true] at hk
        exact Or.inr ⟨q, by rw [hk, hq]⟩
  · intro hf
    rcases toNumberOrNull_shape v with hk | hk
    · exact hk
    · rw [hf] at hk
      simp only [Bool.false_eq_true, if_false] at hk
      exact hk

/-- Witness for C2 at a concrete input: a non-numeric string coerces to
null. -/
theorem toNumberOrNull_finite_or_null_witness :
    isFiniteNum (jsToNumber (JsValue.str "abc")) = false ∧
      toNumberOrNull (JsValue.str "abc") = none :=
  ⟨rfl, (toNumberOrNull_finite_or_null.1 (JsValue.str "abc")).2 rfl⟩

/-! ## Claim C5: the shared fiscal-period mapping -/

/-- C5: for every call date whose split-and-parse yields a numeric year
and month, months 1 to 3 resolve to quarter 4 of the prior year, 4 to 6 to
quarter 1, 7 to 9 to quarter 2 and 10 to 12 to quarter 3 of the same year;
in particular `2026-02-25` resolves to year 2025, quarter 4.  Both
provider embeddings (`ninjasFetchTranscript` and the FMP variant modelled
by the same `dateToFiscalYearQuarter`) share this single mapping. -/
theorem dateToFiscalYearQuarter_mapping :
    (∀ (s : String) (y m : Int), parsedYearMonth s = (some y, some m) →
      ((1 ≤ m ∧ m ≤ 3 → dateToFiscalYearQuarter s = .ok (y - 1, 4)) ∧
       (4 ≤ m ∧ m ≤ 6 → dateToFiscalYearQuarter s = .ok (y, 1)) ∧
       (7 ≤ m ∧ m ≤ 9 → dateToFiscalYearQuarter s = .ok (y, 2)) ∧
       (10 ≤ m ∧ m ≤ 12 → dateToFiscalYearQuarter s = .ok (y, 3)))) ∧
      dateToFiscalYearQuarter "2026-02-25" = .ok (2025, 4) := by
  constructor
  · intro s y m h
    unfold dateToFiscalYearQuarter
    rw [h]
    refine ⟨fun hr => ?_, fun hr => ?_, fun hr => ?_, fun hr => ?_⟩
    · simp only []
      rw [if_pos hr.2]
    · simp only []
      rw [if_neg (by omega), if_pos hr.2]
    · simp only []
      rw [if_neg (by omega), if_neg (by omega), if_pos hr.2]
    · simp only []
      rw [if_neg (by omega), if_neg (by omega), if_neg (by omega)]
  · rfl

/-- Witness for C5 at a concrete call date in the third quarter band. -/
theorem dateToFiscalYearQuarter_mapping_witness :
    parsedYearMonth "2026-07-15" = (some 2026, some 7) ∧
      dateToFiscalYearQuarter "2026-07-15" = .ok (2026, 2) :=
  ⟨rfl, (dateToFiscalYearQuarter_mapping.1 "2026-07-15" 2026 7 rfl).2.2.1 (by decide)⟩

/-! ## Claim C8: calendar events never carry empty symbol or date -/

/-- A successfully constructed event has both guarded fields non-empty:
the guard in `processCalendarItem` discards empty-symbol and empty-date
records before construction. -/
lemma processCalendarItem_ok_some (item : JsValue) (ev : EarningsEvent)
    (h : processCalendarItem item = .ok (some ev)) :
    ev.symbol ≠ "" ∧ ev.reportDate ≠ "" := by
  unfold processCalendarItem at h
  split at h
  · exact absurd h (by simp)
  · split at h
    · exact absurd h (by simp)
    · rename_i hcond
      have hev := Option.some.inj (Except.ok.inj h)
      push_neg at hcond
      rw [← hev]
      exact hcond

/-- Every event produced by the calendar record loop has non-empty symbol
and date. -/
lemma calendarItemsLoop_nonempty (items : List JsValue) (evs : List EarningsEvent)
    (h : calendarItemsLoop items = .ok evs) :
    ∀ ev ∈ evs, ev.symbol ≠ "" ∧ ev.reportDate ≠ "" := by
  induction items generalizing evs with
  | nil =>
    intro ev hev
    rw [calendarItemsLoop] at h
    cases h
    cases hev
  | cons item rest ih =>
    intro ev hev
    rw [calendarItemsLoop] at h
    cases hpi : processCalendarItem item with
    | error e => rw [hpi] at h; cases h
    | ok o =>
      rw [hpi] at h
      cases o with
      | none => exact ih evs h ev hev
      | some ev0 =>
        cases hrest : calendarItemsLoop rest with
        | error e => rw [hrest] at h; cases h
        | ok evs' =>
          rw [hrest] at h
          have := Except.ok.inj h
          subst this
          rcases List.mem_cons.mp hev with rfl | hmem
          · exact processCalendarItem_ok_some item ev hpi
          · exact ih evs' hrest ev hmem

/-- C8: for every parsed calendar response, every event in a successful
normalisation result has a non-empty symbol and a non-empty report date;
records whose symbol or date is missing or trims to empty are skipped
before construction. -/
theorem fmpCalendarEvents_nonempty_fields (data : JsValue) (events : List EarningsEvent)
    (h : fmpCalendarEvents data = .ok events) :
    ∀ ev ∈ events, ev.symbol ≠ "" ∧ ev.reportDate ≠ "" := by
  cases data with
  | arr items =>
    have h2 : (match calendarItemsLoop items with
        | Except.error _ => Except.error CalendarError.itemTypeError
        | Except.ok evs => Except.ok evs) = Except.ok events := h
    cases hloop : calendarItemsLoop items with
    | error e => rw [hloop] at h2; cases h2
    | ok evs =>
      rw [hloop] at h2
      obtain rfl := Except.ok.inj h2
      exact calendarItemsLoop_nonempty items evs hloop
  | null => cases h
  | undefined => cases h
  | bool b => cases h
  | num n => cases h
  | str s => cases h
  | obj fields => cases h

/-- Witness for C8: a concrete response with one good record and one
skipped record yields one event, whose symbol is non-empty. -/
theorem fmpCalendarEvents_nonempty_fields_witness :
    fmpCalendarEvents
        (.arr [.obj [("symbol", .str " NVDA "), ("date", .str "2026-02-25")],
               .obj [("symbol", .str "  ")]]) =
      .ok [{ symbol := "NVDA", reportDate := "2026-02-25", epsActual := none,
             epsEstimated := none, revenueActual := none, revenueEstimated := none,
             raw := .obj [("symbol", .str " NVDA "), ("date", .str "2026-02-25")] }] ∧
      ("NVDA" : String) ≠ "" :=
  ⟨rfl,
    (fmpCalendarEvents_nonempty_fields
        (.arr [.obj [("symbol", .str " NVDA "), ("date", .str "2026-02-25")],
               .obj [("symbol", .str "  ")]])
        [{ symbol := "NVDA", reportDate := "2026-02-25", epsActual := none,
           epsEstimated := none, revenueActual := none, revenueEstimated := none,
           raw := .obj [("symbol", .str " NVDA "), ("date", .str "2026-02-25")] }]
        rfl _ (List.mem_singleton.mpr rfl)).1⟩

/-! ## Claim C3: exchange-map field resolution and normalisation -/

/-- C3 counterexample: the claim says the resolver takes the first
*present non-empty* value among the three field names.  The code instead
takes the first non-nullish value: a record carrying
`exchangeShortName: ""` together with `exchange_short_name: "NASDAQ"` and
symbol `AAA` resolves to the empty string and is skipped, so a snapshot
consisting of that single record builds zero entries — under the claim it
would resolve to NASDAQ and insert `("AAA", "NASDAQ")`. -/
theorem stock_record_empty_field_shadows :
    processStockItem
        (.obj [("symbol", .str "AAA"), ("exchangeShortName", .str ""),
               ("exchange_short_name", .str "NASDAQ")]) = .ok none ∧
      stockExch
        (.obj [("symbol", .str "AAA"), ("exchangeShortName", .str ""),
               ("exchange_short_name", .str "NASDAQ")]) = "" ∧
      stockSym
        (.obj [("symbol", .str "AAA"), ("exchangeShortName", .str ""),
               ("exchange_short_name", .str "NASDAQ")]) = "AAA" ∧
      buildFromNetwork
        (.arr [.obj [("symbol", .str "AAA"), ("exchangeShortName", .str ""),
                     ("exchange_short_name", .str "NASDAQ")]]) = .error .zeroEntries :=
  ⟨rfl, rfl, rfl, rfl⟩

/-- C3 as amended: the exchange code is resolved from the three field
names in the fixed priority order `exchangeShortName`,
`exchange_short_name`, `exchange`, but by taking the first present
non-null/undefined value (an empty string in a higher-priority field is
taken, and then makes the record be skipped); both the symbol and the
resolved exchange value are stringified, uppercased and trimmed before
insertion; a non-nullish record is inserted exactly when both normalised
values are non-empty, and skipped without error otherwise (a null record
element would instead throw a TypeError); a record with
`exchange_short_name: "nasdaq"` and no `exchangeShortName` resolves to
`NASDAQ`. -/
theorem stock_record_resolution :
    (∀ item : JsValue,
      (isNullish (jsField item "exchangeShortName") = false →
        stockExchSrc item = jsField item "exchangeShortName") ∧
      (isNullish (jsField item "exchangeShortName") = true →
        isNullish (jsField item "exchange_short_name") = false →
        stockExchSrc item = jsField item "exchange_short_name") ∧
      (isNullish (jsField item "exchangeShortName") = true →
        isNullish (jsField item "exchange_short_name") = true →
        stockExchSrc item = nullishOr (jsField item "exchange") (.str "")) ∧
      (stockSym item = jsTrim (jsUpper (jsToString (nullishOr (jsField item "symbol") (.str ""))))) ∧
      (stockExch item = jsTrim (jsUpper (jsToString (stockExchSrc item)))) ∧
      (isNullish item = false →
        (processStockItem item = .ok (some (stockSym item, stockExch item)) ∨
          processStockItem item = .ok none) ∧
        (processStockItem item = .ok none ↔
          stockSym item = "" ∨ stockExch item = ""))) ∧
    buildFromNetwork (.arr [.obj [("symbol", .str "msft"),
        ("exchange_short_name", .str "nasdaq")]]) = .ok [("MSFT", "NASDAQ")] := by
  refine ⟨fun item => ⟨?_, ?_, ?_, rfl, rfl, fun hnn => ⟨?_, ?_⟩⟩, rfl⟩
  · intro h1
    unfold stockExchSrc nullishOr
    rw [h1]
    simp
  · intro h1 h2
    unfold stockExchSrc nullishOr
    rw [h1, h2]
    simp
  · intro h1 h2
    unfold stockExchSrc nullishOr
    rw [h1, h2]
    simp
  · unfold processStockItem
    rw [hnn]
    simp only [Bool.false_eq_true, if_false]
    split
    · exact Or.inl rfl
    · exact Or.inr rfl
  · unfold processStockItem
    rw [hnn]
    simp only [Bool.false_eq_true, if_false]
    split
    · rename_i hcond
      constructor
      · intro h; exact Option.noConfusion (Except.ok.inj h)
      · intro hor
        rcases hcond with ⟨hs, he⟩
        rcases hor with h | h
        · exact absurd h hs
        · exact absurd h he
    · rename_i hcond
      constructor
      · intro _
        by_contra hne
        push_neg at hne
        exact hcond ⟨hne.1, hne.2⟩
      · intro _; rfl

/-- Witness for C3: a record whose two higher-priority fields are absent
resolves through the `exchange` field and is inserted uppercased. -/
theorem stock_record_resolution_witness :
    isNullish (.obj [("symbol", .str "ibm"), ("exchange", .str "nyse")] : JsValue) = false ∧
      processStockItem (.obj [("symbol", .str "ibm"), ("exchange", .str "nyse")]) =
        .ok (some ("IBM", "NYSE")) := by
  refine ⟨rfl, ?_⟩
  have h := ((stock_record_resolution.1
      (.obj [("symbol", .str "ibm"), ("exchange", .str "nyse")])).2.2.2.2.2 rfl).1
  rcases h with h | h
  · exact h
  · have hiff := ((stock_record_resolution.1
        (.obj [("symbol", .str "ibm"), ("exchange", .str "nyse")])).2.2.2.2.2 rfl).2
    rcases hiff.mp h with hbad | hbad <;> exact absurd hbad (by decide)

/-! ## Claim C7: the retry policy of the resilient JSON fetcher -/

/-- If the first outcome is not retryable, the fetcher stops after one
attempt. -/
lemma fetchJson_stop1 (url : String) (outcomes : Nat → AttemptOutcome)
    (h0 : retryable (outcomes 0) = false) :
    fetchJson url outcomes = (terminalResult (redactApiKey url) 1 (outcomes 0), 1) := by
  simp [fetchJson, fetchJsonAux, h0]

/-- If only the first outcome is retryable, the fetcher stops after two
attempts. -/
lemma fetchJson_stop2 (url : String) (outcomes : Nat → AttemptOutcome)
    (h0 : retryable (outcomes 0) = true) (h1 : retryable (outcomes 1) = false) :
    fetchJson url outcomes = (terminalResult (redactApiKey url) 2 (outcomes 1), 2) := by
  simp [fetchJson, fetchJsonAux, h0, h1]

/-- If the first two outcomes are retryable, the third attempt is final
whatever its outcome. -/
lemma fetchJson_stop3 (url : String) (outcomes : Nat → AttemptOutcome)
    (h0 : retryable (outcomes 0) = true) (h1 : retryable (outcomes 1) = true) :
    fetchJson url outcomes = (terminalResult (redactApiKey url) 3 (outcomes 2), 3) := by
  simp [fetchJson, fetchJsonAux, h0, h1]

/-- A non-retryable response with a non-success status other than 429 and
503 classifies as an immediate HTTP error with the exact source message. -/
lemma terminalResult_http (safeUrl : String) (attempt status : Nat)
    (stext : String) (b : Option JsValue)
    (hok : statusOk status = false) (h429 : status ≠ 429) (h503 : status ≠ 503) :
    terminalResult safeUrl attempt (.response status stext b) =
      .error .http s!"[FMP] HTTP {status} {stext} — {safeUrl}" := by
  unfold terminalResult
  simp [hok, h429, h503]

/-- A 2xx response whose body fails JSON parsing classifies as an
immediate non-JSON error with the exact source message. -/
lemma terminalResult_nonJson (safeUrl : String) (attempt status : Nat)
    (stext : String) (hok : statusOk status = true) :
    terminalResult safeUrl attempt (.response status stext none) =
      .error .nonJson s!"[FMP] Non-JSON response from {safeUrl}" := by
  have hok2 := hok
  unfold statusOk at hok2
  simp only [Bool.and_eq_true, decide_eq_true_eq] at hok2
  have h429 : status ≠ 429 := by omega
  have h503 : status ≠ 503 := by omega
  unfold terminalResult
  simp [hok, h429, h503]

/-- A 2xx response is never retryable. -/
lemma statusOk_not_retryable (status : Nat) (stext : String) (b : Option JsValue)
    (hok : statusOk status = true) : retryable (.response status stext b) = false := by
  unfold statusOk at hok
  simp only [Bool.and_eq_true, decide_eq_true_eq] at hok
  unfold retryable
  simp only [Bool.or_eq_false_iff, decide_eq_false_iff_not]
  omega

/-- A response with a status other than 429 and 503 is not retryable. -/
lemma not_429_503_not_retryable (status : Nat) (stext : String) (b : Option JsValue)
    (h429 : status ≠ 429) (h503 : status ≠ 503) :
    retryable (.response status stext b) = false := by
  unfold retryable
  simp [h429, h503]

/-- C7: the fetcher makes at most 3 total attempts; every attempt before
the final one had a retryable outcome (transport failure or HTTP 429 or
503); a reached non-retryable outcome ends the run at that attempt; and
in particular a reached response with any other non-success status, or a
2xx response whose body fails JSON parsing, fails immediately with the
matching classification and no further attempt. -/
theorem fetchJson_retry_policy (url : String) (outcomes : Nat → AttemptOutcome) :
    (fetchJson url outcomes).2 ≤ 3 ∧
    (∀ i, i + 1 < (fetchJson url outcomes).2 → retryable (outcomes i) = true) ∧
    (∀ i, i < (fetchJson url outcomes).2 → retryable (outcomes i) = false →
      (fetchJson url outcomes).2 = i + 1) ∧
    (∀ i status stext b, i < (fetchJson url outcomes).2 →
      outcomes i = .response status stext b →
      statusOk status = false → status ≠ 429 → status ≠ 503 →
      (fetchJson url outcomes).2 = i + 1 ∧
        ∃ msg, (fetchJson url outcomes).1 = .error .http msg) ∧
    (∀ i status stext, i < (fetchJson url outcomes).2 →
      outcomes i = .response status stext none → statusOk status = true →
      (fetchJson url outcomes).2 = i + 1 ∧
        ∃ msg, (fetchJson url outcomes).1 = .error .nonJson msg) := by
  cases h0 : retryable (outcomes 0) with
  | false =>
    rw [fetchJson_stop1 url outcomes h0]
    simp only []
    refine ⟨by omega, fun i hi => by omega, fun i hi _ => by omega, ?_, ?_⟩
    · intro i status stext b hi hout hok h429 h503
      have hi0 : i = 0 := by omega
      subst hi0
      rw [hout]
      exact ⟨rfl, _, terminalResult_http _ _ _ _ _ hok h429 h503⟩
    · intro i status stext hi hout hok
      have hi0 : i = 0 := by omega
      subst hi0
      rw [hout]
      exact ⟨rfl, _, terminalResult_nonJson _ _ _ _ hok⟩
  | true =>
    cases h1 : retryable (outcomes 1) with
    | false =>
      rw [fetchJson_stop2 url outcomes h0 h1]
      simp only []
      refine ⟨by omega, ?_, ?_, ?_, ?_⟩
      · intro i hi
        have hi0 : i = 0 := by omega
        subst hi0
        exact h0
      · intro i hi hr
        have : i = 0 ∨ i = 1 := by omega
        rcases this with rfl | rfl
        · rw [h0] at hr; cases hr
        · rfl
      · intro i status stext b hi hout hok h429 h503
        have : i = 0 ∨ i = 1 := by omega
        rcases this with rfl | rfl
        · rw [hout] at h0
          rw [not_429_503_not_retryable status stext b h429 h503] at h0
          cases h0
        · rw [hout]
          exact ⟨rfl, _, terminalResult_http _ _ _ _ _ hok h429 h503⟩
      · intro i status stext hi hout hok
        have : i = 0 ∨ i = 1 := by omega
        rcases this with rfl | rfl
        · rw [hout] at h0
          rw [statusOk_not_retryable status stext none hok] at h0
          cases h0
        · rw [hout]
          exact ⟨rfl, _, terminalResult_nonJson _ _ _ _ hok⟩
    | true =>
      rw [fetchJson_stop3 url outcomes h0 h1]
      simp only []
      refine ⟨by omega, ?_, ?_, ?_, ?_⟩
      · intro i hi
        have : i = 0 ∨ i = 1 := by omega
        rcases this with rfl | rfl
        · exact h0
        · exact h1
      · intro i hi hr
        have : i = 0 ∨ i = 1 ∨ i = 2 := by omega
        rcases this with rfl | rfl | rfl
        · rw [h0] at hr; cases hr
        · rw [h1] at hr; cases hr
        · rfl
      · intro i status stext b hi hout hok h429 h503
        have hnr : retryable (outcomes i) = false := by
          rw [hout]
          exact not_429_503_not_retryable status stext b h429 h503
        have : i = 2 := by
          have : i = 0 ∨ i = 1 ∨ i = 2 := by omega
          rcases this with rfl | rfl | rfl
          · rw [h0] at hnr; cases hnr
          · rw [h1] at hnr; cases hnr
          · rfl
        subst this
        rw [hout]
        exact ⟨rfl, _, terminalResult_http _ _ _ _ _ hok h429 h503⟩
      · intro i status stext hi hout hok
        have hnr : retryable (outcomes i) = false := by
          rw [hout]
          exact statusOk_not_retryable status stext none hok
        have : i = 2 := by
          have : i = 0 ∨ i = 1 ∨ i = 2 := by omega
          rcases this with rfl | rfl | rfl
          · rw [h0] at hnr; cases hnr
          · rw [h1] at hnr; cases hnr
          · rfl
        subst this
        rw [hout]
        exact ⟨rfl, _, terminalResult_nonJson _ _ _ _ hok⟩

/-- Witness for C7: a 404 on the first attempt stops the fetcher after
exactly one attempt with an HTTP-classified error. -/
theorem fetchJson_retry_policy_witness :
    (fetchJson "https://x.test/cal?apikey=SECRET"
        (fun _ => .response 404 "Not Found" none)).2 = 1 ∧
      ∃ msg, (fetchJson "https://x.test/cal?apikey=SECRET"
        (fun _ => .response 404 "Not Found" none)).1 = .error .http msg :=
  (fetchJson_retry_policy "https://x.test/cal?apikey=SECRET"
      (fun _ => .response 404 "Not Found" none)).2.2.2.1
    0 404 "Not Found" none (by decide) rfl (by decide) (by decide) (by decide)

/-! ## Claim C9: API-key redaction in every propagated error message -/

/-- The regex matches at the head of `apikey=` followed by a non-empty
run of non-ampersand characters. -/
lemma matchHere_apikey (k suf : List Char) (hk : k ≠ [])
    (hk2 : ∀ c ∈ k, c ≠ '&') :
    matchHere (apikeyChars ++ (k ++ suf)) = true := by
  unfold matchHere
  rw [List.take_left' (show apikeyChars.length = 7 from rfl),
    List.drop_left' (show apikeyChars.length = 7 from rfl)]
  cases k with
  | nil => exact absurd rfl hk
  | cons c k' =>
    have hc : c ≠ '&' := hk2 c (List.mem_cons_self c k')
    simp [hc]

/-- Dropping the non-ampersand run consumes exactly the key. -/
lemma dropWhile_skips_key (k suf : List Char) (hk2 : ∀ c ∈ k, c ≠ '&') :
    (k ++ suf).dropWhile (fun ch => ch ≠ '&') =
      suf.dropWhile (fun ch => ch ≠ '&') := by
  induction k with
  | nil => rfl
  | cons c k' ih =>
    have hc : c ≠ '&' := hk2 c (List.mem_cons_self c k')
    simp only [List.cons_append, List.dropWhile_cons]
    rw [if_pos (by simp [hc])]
    exact ih (fun x hx => hk2 x (List.mem_cons_of_mem c hx))

/-- A suffix that is empty or starts with an ampersand survives the
drop untouched. -/
lemma dropWhile_suffix_fixed (suf : List Char)
    (hs : suf = [] ∨ ∃ rest, suf = '&' :: rest) :
    suf.dropWhile (fun ch => ch ≠ '&') = suf := by
  rcases hs with rfl | ⟨rest, rfl⟩
  · rfl
  · simp [List.dropWhile_cons]

/-- Core redaction lemma: when `apikey=` first occurs right after the
prefix, the replace rewrites exactly the key span and leaves prefix and
suffix intact. -/
lemma redactChars_append (p k suf : List Char)
    (hp : ∀ i, i < p.length → ((p ++ apikeyChars).drop i).take 7 ≠ apikeyChars)
    (hk : k ≠ []) (hk2 : ∀ c ∈ k, c ≠ '&')
    (hs : suf = [] ∨ ∃ rest, suf = '&' :: rest) :
    redactChars (p ++ apikeyChars ++ k ++ suf) = p ++ redactedChars ++ suf := by
  induction p with
  | nil =>
    show redactChars ('a' :: 'p' :: 'i' :: 'k' :: 'e' :: 'y' :: '=' :: (k ++ suf)) =
      redactedChars ++ suf
    have hmatch : matchHere ('a' :: 'p' :: 'i' :: 'k' :: 'e' :: 'y' :: '=' :: (k ++ suf)) = true :=
      matchHere_apikey k suf hk hk2
    rw [redactChars, if_pos hmatch]
    show redactedChars ++ (k ++ suf).dropWhile (fun ch => ch ≠ '&') = redactedChars ++ suf
    rw [dropWhile_skips_key k suf hk2, dropWhile_suffix_fixed suf hs]
  | cons c p' ih =>
    show redactChars (c :: (p' ++ apikeyChars ++ k ++ suf)) =
      c :: (p' ++ redactedChars ++ suf)
    have htake : (c :: (p' ++ apikeyChars ++ k ++ suf)).take 7 =
        (c :: (p' ++ apikeyChars)).take 7 := by
      have hsplit : c :: (p' ++ apikeyChars ++ k ++ suf) =
          (c :: (p' ++ apikeyChars)) ++ (k ++ suf) := by
        simp [List.append_assoc]
      rw [hsplit]
      exact List.take_append_of_le_length (by simp [apikeyChars])
    have hno : matchHere (c :: (p' ++ apikeyChars ++ k ++ suf)) = false := by
      have h0 := hp 0 (by simp)
      simp only [List.drop_zero] at h0
      have hdec : decide ((c :: (p' ++ apikeyChars ++ k ++ suf)).take 7 = apikeyChars) = false := by
        rw [htake]
        exact decide_eq_false h0
      unfold matchHere
      rw [hdec, Bool.false_and]
    rw [redactChars, if_neg (by intro hc7; rw [hno] at hc7; cases hc7)]
    have hp' : ∀ i, i < p'.length → ((p' ++ apikeyChars).drop i).take 7 ≠ apikeyChars := by
      intro i hi
      have := hp (i + 1) (by simp; omega)
      rw [show ((c :: p') ++ apikeyChars).drop (i + 1) = (p' ++ apikeyChars).drop i from rfl] at this
      exact this
    rw [ih hp']

/-- Redaction at the string level: the API-key value is replaced by the
fixed placeholder. -/
lemma redactApiKey_replaces (pre key suf : String)
    (hp : ∀ i, i < pre.toList.length →
      ((pre.toList ++ apikeyChars).drop i).take 7 ≠ apikeyChars)
    (hk : key.toList ≠ []) (hk2 : ∀ c ∈ key.toList, c ≠ '&')
    (hs : suf.toList = [] ∨ ∃ rest, suf.toList = '&' :: rest) :
    redactApiKey (pre ++ "apikey=" ++ key ++ suf) = pre ++ "apikey=REDACTED" ++ suf := by
  unfold redactApiKey
  have hdata : (pre ++ "apikey=" ++ key ++ suf).toList =
      pre.toList ++ apikeyChars ++ key.toList ++ suf.toList := by
    show (pre ++ "apikey=" ++ key ++ suf).data =
      pre.data ++ apikeyChars ++ key.data ++ suf.data
    rw [String.data_append, String.data_append, String.data_append]
    rfl
  rw [hdata, redactChars_append pre.toList key.toList suf.toList hp hk hk2 hs]
  have : (pre ++ "apikey=REDACTED" ++ suf).data =
      pre.toList ++ redactedChars ++ suf.toList := by
    rw [String.data_append, String.data_append]
    rfl
  rw [show pre ++ "apikey=REDACTED" ++ suf =
    String.mk ((pre ++ "apikey=REDACTED" ++ suf).data) from rfl, this]

/-- C9: for every URL of the form `prefix ++ apikey= ++ key ++ suffix`
in which `apikey=` does not occur inside the prefix, the key is non-empty
and ampersand-free, and the suffix is empty or starts at the next query
parameter, the propagated URL is the redacted one (key replaced by the
fixed `REDACTED` placeholder), and every result of the fetcher — hence
every propagated error message on every failure path — is identical for
any two key values: the credential never influences, and so never appears
in, what is propagated. -/
theorem fetchJson_redacts_credentials (pre key1 key2 suf : String)
    (outcomes : Nat → AttemptOutcome)
    (hp : ∀ i, i < pre.toList.length →
      ((pre.toList ++ apikeyChars).drop i).take 7 ≠ apikeyChars)
    (hk1 : key1.toList ≠ []) (hk2 : key2.toList ≠ [])
    (ha1 : ∀ c ∈ key1.toList, c ≠ '&') (ha2 : ∀ c ∈ key2.toList, c ≠ '&')
    (hs : suf.toList = [] ∨ ∃ rest, suf.toList = '&' :: rest) :
    redactApiKey (pre ++ "apikey=" ++ key1 ++ suf) = pre ++ "apikey=REDACTED" ++ suf ∧
      fetchJson (pre ++ "apikey=" ++ key1 ++ suf) outcomes =
        fetchJson (pre ++ "apikey=" ++ key2 ++ suf) outcomes := by
  have h1 := redactApiKey_replaces pre key1 suf hp hk1 ha1 hs
  have h2 := redactApiKey_replaces pre key2 suf hp hk2 ha2 hs
  refine ⟨h1, ?_⟩
  unfold fetchJson
  rw [h1, h2]

/-- Witness for C9 at a concrete URL: two different keys produce the same
redacted URL and byte-identical fetch results. -/
theorem fetchJson_redacts_credentials_witness :
    redactApiKey ("https://x.test/list?" ++ "apikey=" ++ "SECRET123" ++ "") =
        "https://x.test/list?" ++ "apikey=REDACTED" ++ "" ∧
      fetchJson ("https://x.test/list?" ++ "apikey=" ++ "SECRET123" ++ "")
          (fun _ => .transportError "boom") =
        fetchJson ("https://x.test/list?" ++ "apikey=" ++ "K2" ++ "")
          (fun _ => .transportError "boom") :=
  fetchJson_redacts_credentials "https://x.test/list?" "SECRET123" "K2" ""
    (fun _ => .transportError "boom")
    (by decide) (by decide) (by decide) (by decide) (by decide) (Or.inl rfl)

/-! ## Claim C6: cache-miss semantics and the builder network tie -/

/-- The structural validation performed by `tryLoadCache`: `builtAt` is a
number (including NaN and infinities, which pass `typeof`) and `entries`
is an array. -/
def structuralOkB (v : JsValue) : Bool :=
  (match jsField v "builtAt" with
   | .num _ => true
   | _ => false) &&
  (match jsField v "entries" with
   | .arr _ => true
   | _ => false)

/-- Every condition under which the load comes back as a miss: file
absent or unreadable, unparseable JSON, a non-nullish payload failing the
structural validation, or a structurally valid payload older than the
TTL. -/
def cacheMissSpec (file : CacheFile) (now : Int) : Prop :=
  file = .absent ∨ file = .notJson ∨
    (∃ v, file = .json v ∧ isNullish v = false ∧ structuralOkB v = false) ∨
    (∃ v b es, file = .json v ∧ jsField v "builtAt" = .num b ∧
      jsField v "entries" = .arr es ∧ isStale now b = true)

/-- A nullish parsed payload makes the load throw. -/
lemma tryLoadCache_json_nullish (v : JsValue) (now : Int) (hn : isNullish v = true) :
    tryLoadCache (.json v) now = .error () := by
  simp [tryLoadCache, propAccess, hn]

/-- Evaluation of the load on a non-nullish parsed payload. -/
lemma tryLoadCache_json_eq (v : JsValue) (now : Int) (hn : isNullish v = false) :
    tryLoadCache (.json v) now =
      (match jsField v "builtAt" with
       | .num b =>
         match jsField v "entries" with
         | .arr es =>
           if isStale now b then Except.ok none
           else
             match destructureEntries es with
             | .error e => .error e
             | .ok pairs => .ok (some { entries := pairs, builtAt := b })
         | _ => Except.ok none
       | _ => Except.ok none) := by
  simp [tryLoadCache, propAccess, hn]

/-- A payload whose `builtAt` field holds a number is not nullish. -/
lemma not_nullish_of_builtAt_num (v : JsValue) (b : JsNumber)
    (hb : jsField v "builtAt" = .num b) : isNullish v = false := by
  cases v <;> first
    | rfl
    | simp [jsField] at hb

/-- The cache file with `builtAt` eight days in the past used by the
concrete staleness example. -/
def staleCacheFile (now : Int) : CacheFile :=
  .json (.obj [("builtAt", .num (.finite ((now : Rat) - 691200000))),
               ("entries", .arr [])])

/-- The cache file with `builtAt` one hour in the past used by the
concrete freshness example. -/
def freshCacheFile (now : Int) : CacheFile :=
  .json (.obj [("builtAt", .num (.finite ((now : Rat) - 3600000))),
               ("entries", .arr [.obj [("symbol", .str "IBM"),
                                       ("exchange", .str "NYSE")]])])

/-- Eight days exceed the seven-day TTL. -/
lemma staleCacheFile_stale (now : Int) :
    isStale now (.finite ((now : Rat) - 691200000)) = true := by
  unfold isStale
  apply decide_eq_true
  have h : (now : Rat) - ((now : Rat) - 691200000) = 691200000 := by ring
  rw [CACHE_TTL_MS, h]
  norm_num

/-- One hour is within the seven-day TTL. -/
lemma freshCacheFile_fresh (now : Int) :
    isStale now (.finite ((now : Rat) - 3600000)) = false := by
  unfold isStale
  apply decide_eq_false
  have h : (now : Rat) - ((now : Rat) - 3600000) = 3600000 := by ring
  rw [CACHE_TTL_MS, h]
  norm_num

/-- C6 counterexample: a cache file whose contents are the JSON literal
`null` parses successfully and fails the structural validation (its
`builtAt` is not a number), so the claim demands a miss followed by a
network rebuild; the code instead throws a TypeError while reading
`payload.builtAt` (the check sits outside both try blocks), the load does
not return a miss, and the build fails without rebuilding. -/
theorem cache_null_payload_throws :
    tryLoadCache (.json .null) 0 = .error () ∧
      structuralOkB JsValue.null = false ∧
      buildSymbolToExchangeMap (.json .null) 0
        (.arr [.obj [("symbol", .str "A"), ("exchange", .str "NYSE")]]) =
        .error .cacheTypeError :=
  ⟨rfl, rfl, rfl⟩

/-- C6 as amended: the load returns a miss when the file is absent or
unreadable, when its contents fail JSON parsing, when a non-null parsed
payload fails structural validation (`builtAt` not a number or `entries`
not an array), and when a structurally valid payload is older than the
7-day TTL; conversely a miss arises only under those conditions (a file
parsing to the JSON literal `null` instead throws).  On a hit the Builder
returns the cached map with zero network calls; on a miss it rebuilds
from the network snapshot.  Concretely, `builtAt` = now − 8 days misses
and rebuilds, while `builtAt` = now − 1 hour returns the cached map even
when the would-be network snapshot is one the network path would
reject. -/
theorem cache_miss_semantics :
    (∀ now : Int, tryLoadCache .absent now = .ok none) ∧
    (∀ now : Int, tryLoadCache .notJson now = .ok none) ∧
    (∀ (v : JsValue) (now : Int), isNullish v = false → structuralOkB v = false →
      tryLoadCache (.json v) now = .ok none) ∧
    (∀ (v : JsValue) (b : JsNumber) (es : List JsValue) (now : Int),
      jsField v "builtAt" = .num b → jsField v "entries" = .arr es →
      isStale now b = true → tryLoadCache (.json v) now = .ok none) ∧
    (∀ (file : CacheFile) (now : Int),
      tryLoadCache file now = .ok none → cacheMissSpec file now) ∧
    (∀ (file : CacheFile) (now : Int) (data : JsValue) (hit : CacheHit),
      tryLoadCache file now = .ok (some hit) →
      buildSymbolToExchangeMap file now data = .ok (.fromCache hit.entries)) ∧
    (∀ (file : CacheFile) (now : Int) (data : JsValue) (m : List (String × String)),
      tryLoadCache file now = .ok none → buildFromNetwork data = .ok m →
      buildSymbolToExchangeMap file now data = .ok (.fromNetwork m)) ∧
    (∀ now : Int, tryLoadCache (staleCacheFile now) now = .ok none) ∧
    (∀ now : Int, buildSymbolToExchangeMap (freshCacheFile now) now (.arr []) =
      .ok (.fromCache [(.str "IBM", .str "NYSE")])) := by
  refine ⟨fun _ => rfl, fun _ => rfl, ?_, ?_, ?_, ?_, ?_, ?_, ?_⟩
  · intro v now hn hs
    rw [tryLoadCache_json_eq v now hn]
    cases hb : jsField v "builtAt" with
    | num b =>
      cases he : jsField v "entries" with
      | arr es =>
        exfalso
        rw [structuralOkB, hb, he] at hs
        cases hs
      | null => rfl
      | undefined => rfl
      | bool x => rfl
      | num x => rfl
      | str x => rfl
      | obj x => rfl
    | null => rfl
    | undefined => rfl
    | bool x => rfl
    | str x => rfl
    | arr x => rfl
    | obj x => rfl
  · intro v b es now hb he hst
    have hn := not_nullish_of_builtAt_num v b hb
    rw [tryLoadCache_json_eq v now hn, hb, he]
    show (if isStale now b = true then (Except.ok none : Except Unit (Option CacheHit))
      else match destructureEntries es with
        | Except.error e => Except.error e
        | Except.ok pairs => Except.ok (some { entries := pairs, builtAt := b })) =
      Except.ok none
    rw [if_pos hst]
  · intro file now h
    cases file with
    | absent => exact Or.inl rfl
    | notJson => exact Or.inr (Or.inl rfl)
    | json v =>
      cases hn : isNullish v with
      | true =>
        rw [tryLoadCache_json_nullish v now hn] at h
        cases h
      | false =>
        rw [tryLoadCache_json_eq v now hn] at h
        cases hb : jsField v "builtAt" with
        | num b =>
          rw [hb] at h
          cases he : jsField v "entries" with
          | arr es =>
            rw [he] at h
            cases hst : isStale now b with
            | true =>
              exact Or.inr (Or.inr (Or.inr ⟨v, b, es, rfl, hb, he, hst⟩))
            | false =>
              exfalso
              have h2 : (if isStale now b = true then
                  (Except.ok none : Except Unit (Option CacheHit))
                else match destructureEntries es with
                  | Except.error e => Except.error e
                  | Except.ok pairs =>
                    Except.ok (some { entries := pairs, builtAt := b })) =
                Except.ok none := h
              rw [if_neg (by simp [hst])] at h2
              cases hd : destructureEntries es with
              | error e => rw [hd] at h2; simp at h2
              | ok pairs => rw [hd] at h2; simp at h2
          | null => exact Or.inr (Or.inr (Or.inl ⟨v, rfl, hn, by simp [structuralOkB, hb, he]⟩))
          | undefined => exact Or.inr (Or.inr (Or.inl ⟨v, rfl, hn, by simp [structuralOkB, hb, he]⟩))
          | bool x => exact Or.inr (Or.inr (Or.inl ⟨v, rfl, hn, by simp [structuralOkB, hb, he]⟩))
          | num x => exact Or.inr (Or.inr (Or.inl ⟨v, rfl, hn, by simp [structuralOkB, hb, he]⟩))
          | str x => exact Or.inr (Or.inr (Or.inl ⟨v, rfl, hn, by simp [structuralOkB, hb, he]⟩))
          | obj x => exact Or.inr (Or.inr (Or.inl ⟨v, rfl, hn, by simp [structuralOkB, hb, he]⟩))
        | null => exact Or.inr (Or.inr (Or.inl ⟨v, rfl, hn, by simp [structuralOkB, hb]⟩))
        | undefined => exact Or.inr (Or.inr (Or.inl ⟨v, rfl, hn, by simp [structuralOkB, hb]⟩))
        | bool x => exact Or.inr (Or.inr (Or.inl ⟨v, rfl, hn, by simp [structuralOkB, hb]⟩))
        | str x => exact Or.inr (Or.inr (Or.inl ⟨v, rfl, hn, by simp [structuralOkB, hb]⟩))
        | arr x => exact Or.inr (Or.inr (Or.inl ⟨v, rfl, hn, by simp [structuralOkB, hb]⟩))
        | obj x => exact Or.inr (Or.inr (Or.inl ⟨v, rfl, hn, by simp [structuralOkB, hb]⟩))
  · intro file now data hit h
    unfold buildSymbolToExchangeMap
    rw [h]
  · intro file now data m h hb
    unfold buildSymbolToExchangeMap
    rw [h, hb]
  · intro now
    show (if isStale now (JsNumber.finite ((now : Rat) - 691200000)) = true
        then (Except.ok none : Except Unit (Option CacheHit))
        else Except.ok (some (CacheHit.mk []
          (JsNumber.finite ((now : Rat) - 691200000))))) = Except.ok none
    rw [if_pos (staleCacheFile_stale now)]
  · intro now
    have hload : tryLoadCache (freshCacheFile now) now =
        .ok (some (CacheHit.mk [(.str "IBM", .str "NYSE")]
          (.finite ((now : Rat) - 3600000)))) := by
      show (if isStale now (JsNumber.finite ((now : Rat) - 3600000)) = true
          then (Except.ok none : Except Unit (Option CacheHit))
          else Except.ok (some (CacheHit.mk [(JsValue.str "IBM", JsValue.str "NYSE")]
            (JsNumber.finite ((now : Rat) - 3600000))))) =
        Except.ok (some (CacheHit.mk [(JsValue.str "IBM", JsValue.str "NYSE")]
          (JsNumber.finite ((now : Rat) - 3600000))))
      rw [if_neg (by simp [freshCacheFile_fresh now])]
    unfold buildSymbolToExchangeMap
    rw [hload]

/-- Witness for C6: at a concrete clock value the eight-day-old file
misses. -/
theorem cache_miss_semantics_witness :
    tryLoadCache (staleCacheFile 1760000000000) 1760000000000 = .ok none :=
  cache_miss_semantics.2.2.2.2.2.2.2.1 1760000000000

/-! ## Claim C4: not-found semantics of the transcript provider -/

/-- No element of the speaker-turn array (when one is selected) is
nullish, so the turn loop cannot throw. -/
def noTurnCrash (raw : JsValue) : Bool :=
  match nullishOr (jsField raw "transcript_split") (jsField raw "transcript_by_speaker") with
  | .arr turns => turns.all (fun t => !(isNullish t))
  | _ => true

/-- Appending on the left of a non-empty string stays non-empty. -/
lemma str_append_ne_left (a b : String) (h : a ≠ "") : a ++ b ≠ "" := by
  intro hc
  apply h
  have hd := congrArg String.data hc
  rw [String.data_append] at hd
  exact String.ext (List.append_eq_nil.mp hd).1

/-- Appending on the right of a non-empty string stays non-empty. -/
lemma str_append_ne_right (a b : String) (h : b ≠ "") : a ++ b ≠ "" := by
  intro hc
  apply h
  have hd := congrArg String.data hc
  rw [String.data_append] at hd
  exact String.ext (List.append_eq_nil.mp hd).2

/-- The joining accumulator never becomes empty. -/
lemma intercalate_go_ne (as : List String) (acc s : String) (h : acc ≠ "") :
    String.intercalate.go acc s as ≠ "" := by
  induction as generalizing acc with
  | nil => exact h
  | cons a rest ih => exact ih (acc ++ s ++ a) (str_append_ne_left _ _ (str_append_ne_left _ _ h))

/-- Joining a list whose first element is non-empty yields a non-empty
string. -/
lemma intercalate_cons_ne (s a : String) (as : List String) (h : a ≠ "") :
    String.intercalate s (a :: as) ≠ "" :=
  intercalate_go_ne as a s h

/-- When no turn is nullish, the turn loop completes without throwing. -/
lemma collectTurnLines_total (turns : List JsValue)
    (h : ∀ t ∈ turns, isNullish t = false) :
    ∃ lines, collectTurnLines turns = .ok lines := by
  induction turns with
  | nil => exact ⟨[], rfl⟩
  | cons turn rest ih =>
    obtain ⟨lines, hl⟩ := ih (fun t ht => h t (List.mem_cons_of_mem _ ht))
    refine ⟨if jsTrim (jsToString (nullishOr (jsField turn "text") (.str ""))) ≠ "" then
        (jsTrim (jsToString (nullishOr (jsField turn "speaker") (.str "Unknown"))) ++ ": " ++
          jsTrim (jsToString (nullishOr (jsField turn "text") (.str "")))) :: lines
      else lines, ?_⟩
    rw [collectTurnLines, if_neg (by simp [h turn (List.mem_cons_self _ _)]), hl]

/-- Every line the turn loop produces is non-empty: each has the shape
`speaker: text` with non-empty text. -/
lemma collectTurnLines_ne_empty (turns : List JsValue) (lines : List String)
    (h : collectTurnLines turns = .ok lines) :
    ∀ l ∈ lines, l ≠ "" := by
  induction turns generalizing lines with
  | nil =>
    rw [collectTurnLines] at h
    obtain rfl := Except.ok.inj h
    intro l hl
    cases hl
  | cons turn rest ih =>
    intro l hl
    rw [collectTurnLines] at h
    by_cases hn : isNullish turn = true
    · rw [if_pos hn] at h
      exact Except.noConfusion h
    · rw [if_neg hn] at h
      cases hr : collectTurnLines rest with
      | error e =>
        rw [hr] at h
        exact Except.noConfusion h
      | ok ls =>
        rw [hr] at h
        have h2 : Except.ok
            (if jsTrim (jsToString (nullishOr (jsField turn "text") (.str ""))) ≠ "" then
              (jsTrim (jsToString (nullishOr (jsField turn "speaker") (.str "Unknown"))) ++ ": " ++
                jsTrim (jsToString (nullishOr (jsField turn "text") (.str "")))) :: ls
            else ls) = Except.ok lines := h
        have h3 := Except.ok.inj h2
        rw [← h3] at hl
        by_cases ht : jsTrim (jsToString (nullishOr (jsField turn "text") (.str ""))) ≠ ""
        · rw [if_pos ht] at hl
          rcases List.mem_cons.mp hl with rfl | hmem
          · exact str_append_ne_right _ _ ht
          · exact ih ls hr l hmem
        · rw [if_neg ht] at hl
          exact ih ls hr l hl

/-- A successful free-path extraction is non-empty. -/
lemma ninjasFreeText_ok_ne (raw : JsValue) (s : String) (y : Int) (q : Nat) (t : String)
    (h : ninjasFreeText raw s y q = .ok t) : t ≠ "" := by
  unfold ninjasFreeText at h
  split at h
  · rename_i hcond
    obtain rfl := Except.ok.inj h
    exact hcond
  · exact Except.noConfusion h

/-- A successful extraction is non-empty, on either response shape. -/
lemma extractNinjasText_ok_ne (raw : JsValue) (s : String) (y : Int) (q : Nat) (t : String)
    (h : extractNinjasText raw s y q = .ok t) : t ≠ "" := by
  cases hsp : nullishOr (jsField raw "transcript_split") (jsField raw "transcript_by_speaker") with
  | arr turns =>
    have h2 : (if turns.length > 0 then
        (match collectTurnLines turns with
         | Except.error e => Except.error e
         | Except.ok lines =>
           if lines.length > 0 then Except.ok (String.intercalate "\n\n" lines)
           else ninjasFreeText raw s y q)
      else ninjasFreeText raw s y q) = Except.ok t := by
      rw [← h]
      unfold extractNinjasText
      rw [hsp]
    by_cases hlen : turns.length > 0
    · rw [if_pos hlen] at h2
      cases hc : collectTurnLines turns with
      | error e =>
        rw [hc] at h2
        exact Except.noConfusion h2
      | ok lines =>
        rw [hc] at h2
        have h3 : (if lines.length > 0 then Except.ok (String.intercalate "\n\n" lines)
            else ninjasFreeText raw s y q) = Except.ok t := h2
        by_cases hll : lines.length > 0
        · rw [if_pos hll] at h3
          have h4 := Except.ok.inj h3
          rw [← h4]
          cases lines with
          | nil => simp at hll
          | cons l ls =>
            exact intercalate_cons_ne _ _ _
              (collectTurnLines_ne_empty turns (l :: ls) hc l (List.mem_cons_self _ _))
        · rw [if_neg hll] at h3
          exact ninjasFreeText_ok_ne raw s y q t h3
    · rw [if_neg hlen] at h2
      exact ninjasFreeText_ok_ne raw s y q t h2
  | null =>
    refine ninjasFreeText_ok_ne raw s y q t ?_
    rw [← h]
    unfold extractNinjasText
    rw [hsp]
  | undefined =>
    refine ninjasFreeText_ok_ne raw s y q t ?_
    rw [← h]
    unfold extractNinjasText
    rw [hsp]
  | bool x =>
    refine ninjasFreeText_ok_ne raw s y q t ?_
    rw [← h]
    unfold extractNinjasText
    rw [hsp]
  | num x =>
    refine ninjasFreeText_ok_ne raw s y q t ?_
    rw [← h]
    unfold extractNinjasText
    rw [hsp]
  | str x =>
    refine ninjasFreeText_ok_ne raw s y q t ?_
    rw [← h]
    unfold extractNinjasText
    rw [hsp]
  | obj x =>
    refine ninjasFreeText_ok_ne raw s y q t ?_
    rw [← h]
    unfold extractNinjasText
    rw [hsp]

/-- The free path either succeeds with non-empty text or raises the
not-found condition carrying the fiscal tag. -/
lemma ninjasFreeText_cases (raw : JsValue) (s : String) (y : Int) (q : Nat) :
    (∃ t, ninjasFreeText raw s y q = .ok t ∧ t ≠ "") ∨
      ninjasFreeText raw s y q = .error (.notFound s (fiscalTag y q) "API Ninjas") := by
  unfold ninjasFreeText
  split
  · rename_i hcond
    exact Or.inl ⟨_, rfl, hcond⟩
  · exact Or.inr rfl

/-- When the turn loop cannot throw, extraction either succeeds with
non-empty text or raises the not-found condition with the fiscal tag. -/
lemma extractNinjasText_cases (raw : JsValue) (s : String) (y : Int) (q : Nat)
    (hcr : noTurnCrash raw = true) :
    (∃ t, extractNinjasText raw s y q = .ok t ∧ t ≠ "") ∨
      extractNinjasText raw s y q = .error (.notFound s (fiscalTag y q) "API Ninjas") := by
  cases hsp : nullishOr (jsField raw "transcript_split") (jsField raw "transcript_by_speaker") with
  | arr turns =>
    have hE : extractNinjasText raw s y q = (if turns.length > 0 then
        (match collectTurnLines turns with
         | Except.error e => Except.error e
         | Except.ok lines =>
           if lines.length > 0 then Except.ok (String.intercalate "\n\n" lines)
           else ninjasFreeText raw s y q)
      else ninjasFreeText raw s y q) := by
      unfold extractNinjasText
      rw [hsp]
    by_cases hlen : turns.length > 0
    · have hnn : ∀ t ∈ turns, isNullish t = false := by
        unfold noTurnCrash at hcr
        rw [hsp] at hcr
        have hcr2 : turns.all (fun t => !(isNullish t)) = true := hcr
        intro t ht
        have := List.all_eq_true.mp hcr2 t ht
        simpa using this
      obtain ⟨lines, hl⟩ := collectTurnLines_total turns hnn
      have hE2 : extractNinjasText raw s y q =
          (if lines.length > 0 then Except.ok (String.intercalate "\n\n" lines)
            else ninjasFreeText raw s y q) := by
        rw [hE, if_pos hlen, hl]
      by_cases hll : lines.length > 0
      · cases lines with
        | nil => simp at hll
        | cons l ls =>
          refine Or.inl ⟨String.intercalate "\n\n" (l :: ls), ?_, ?_⟩
          · rw [hE2, if_pos hll]
          · exact intercalate_cons_ne _ _ _
              (collectTurnLines_ne_empty turns (l :: ls) hl l (List.mem_cons_self _ _))
      · have hE3 : extractNinjasText raw s y q = ninjasFreeText raw s y q := by
          rw [hE2, if_neg hll]
        rcases ninjasFreeText_cases raw s y q with ⟨t, ht, htne⟩ | herr
        · exact Or.inl ⟨t, by rw [hE3, ht], htne⟩
        · exact Or.inr (by rw [hE3, herr])
    · have hE3 : extractNinjasText raw s y q = ninjasFreeText raw s y q := by
        rw [hE, if_neg hlen]
      rcases ninjasFreeText_cases raw s y q with ⟨t, ht, htne⟩ | herr
      · exact Or.inl ⟨t, by rw [hE3, ht], htne⟩
      · exact Or.inr (by rw [hE3, herr])
  | null =>
    have hE3 : extractNinjasText raw s y q = ninjasFreeText raw s y q := by
      unfold extractNinjasText
      rw [hsp]
    rcases ninjasFreeText_cases raw s y q with ⟨t, ht, htne⟩ | herr
    · exact Or.inl ⟨t, by rw [hE3, ht], htne⟩
    · exact Or.inr (by rw [hE3, herr])
  | undefined =>
    have hE3 : extractNinjasText raw s y q = ninjasFreeText raw s y q := by
      unfold extractNinjasText
      rw [hsp]
    rcases ninjasFreeText_cases raw s y q with ⟨t, ht, htne⟩ | herr
    · exact Or.inl ⟨t, by rw [hE3, ht], htne⟩
    · exact Or.inr (by rw [hE3, herr])
  | bool x =>
    have hE3 : extractNinjasText raw s y q = ninjasFreeText raw s y q := by
      unfold extractNinjasText
      rw [hsp]
    rcases ninjasFreeText_cases raw s y q with ⟨t, ht, htne⟩ | herr
    · exact Or.inl ⟨t, by rw [hE3, ht], htne⟩
    · exact Or.inr (by rw [hE3, herr])
  | num x =>
    have hE3 : extractNinjasText raw s y q = ninjasFreeText raw s y q := by
      unfold extractNinjasText
      rw [hsp]
    rcases ninjasFreeText_cases raw s y q with ⟨t, ht, htne⟩ | herr
    · exact Or.inl ⟨t, by rw [hE3, ht], htne⟩
    · exact Or.inr (by rw [hE3, herr])
  | str x =>
    have hE3 : extractNinjasText raw s y q = ninjasFreeText raw s y q := by
      unfold extractNinjasText
      rw [hsp]
    rcases ninjasFreeText_cases raw s y q with ⟨t, ht, htne⟩ | herr
    · exact Or.inl ⟨t, by rw [hE3, ht], htne⟩
    · exact Or.inr (by rw [hE3, herr])
  | obj x =>
    have hE3 : extractNinjasText raw s y q = ninjasFreeText raw s y q := by
      unfold extractNinjasText
      rw [hsp]
    rcases ninjasFreeText_cases raw s y q with ⟨t, ht, htne⟩ | herr
    · exact Or.inl ⟨t, by rw [hE3, ht], htne⟩
    · exact Or.inr (by rw [hE3, herr])

/-- With a resolved fiscal period, the fetch reduces to the response
handling. -/
lemma ninjasFetchTranscript_eq (symbol callDate : String) (res : HttpResponse)
    (y : Int) (q : Nat) (hdate : dateToFiscalYearQuarter callDate = .ok (y, q)) :
    ninjasFetchTranscript symbol callDate res = ninjasFetchSteps symbol callDate res y q := by
  unfold ninjasFetchTranscript
  rw [hdate]

/-- C4 counterexample: a parsed 200 response whose `transcript_split`
array contains a null turn yields no usable transcript text, yet reading
`turn["speaker"]` throws a TypeError, so the fetch fails with a generic
error and not with the dedicated not-found condition the claim
requires. -/
theorem ninjas_null_turn_generic :
    ninjasFetchTranscript "NVDA" "2026-02-25"
        { status := 200, body := some (.obj [("transcript_split", .arr [.null])]) } =
      .error (.generic turnTypeErrorMsg) ∧
    ninjasFetchTranscript "NVDA" "2026-02-25"
        { status := 200, body := some (.obj [("transcript_split", .arr [.null])]) } ≠
      .error (.notFound "NVDA" "2026-02-25" "API Ninjas") ∧
    ninjasFetchTranscript "NVDA" "2026-02-25"
        { status := 200, body := some (.obj [("transcript_split", .arr [.null])]) } ≠
      .error (.notFound "NVDA" "2025Q4" "API Ninjas") := by
  refine ⟨rfl, ?_, ?_⟩
  · intro h
    rw [show ninjasFetchTranscript "NVDA" "2026-02-25"
        { status := 200, body := some (.obj [("transcript_split", .arr [.null])]) } =
      .error (.generic turnTypeErrorMsg) from rfl] at h
    exact TranscriptError.noConfusion (Except.error.inj h)
  · intro h
    rw [show ninjasFetchTranscript "NVDA" "2026-02-25"
        { status := 200, body := some (.obj [("transcript_split", .arr [.null])]) } =
      .error (.generic turnTypeErrorMsg) from rfl] at h
    exact TranscriptError.noConfusion (Except.error.inj h)

/-- C4 as amended: for every symbol, every call date with a resolvable
fiscal period, and every observed response: an HTTP 404 fails with the
dedicated not-found condition carrying the requested symbol, the
requested call date and the provider name; a success value never carries
empty transcript text; and a successfully parsed 2xx response whose
speaker-turn processing cannot throw (no null turn — a null turn raises a
generic TypeError instead) either succeeds with non-empty text or fails
with the dedicated not-found condition carrying the requested symbol, the
requested period (the call date or its fiscal tag) and the provider
name. -/
theorem ninjas_notfound_semantics (symbol callDate : String) (res : HttpResponse)
    (y : Int) (q : Nat) (hdate : dateToFiscalYearQuarter callDate = .ok (y, q)) :
    (res.status = 404 →
      ninjasFetchTranscript symbol callDate res =
        .error (.notFound symbol callDate "API Ninjas")) ∧
    (∀ t, ninjasFetchTranscript symbol callDate res = .ok t → t.text ≠ "") ∧
    (∀ body, res.body = some body → statusOk res.status = true →
      noTurnCrash (ninjasSelectRaw body) = true →
      ((∃ t, ninjasFetchTranscript symbol callDate res = .ok t ∧ t.text ≠ "") ∨
        ninjasFetchTranscript symbol callDate res =
          .error (.notFound symbol callDate "API Ninjas") ∨
        ninjasFetchTranscript symbol callDate res =
          .error (.notFound symbol (fiscalTag y q) "API Ninjas"))) := by
  obtain ⟨st, bod⟩ := res
  refine ⟨?_, ?_, ?_⟩
  · intro h404
    rw [ninjasFetchTranscript_eq symbol callDate _ y q hdate]
    unfold ninjasFetchSteps
    rw [if_pos h404]
  · intro t h
    rw [ninjasFetchTranscript_eq symbol callDate _ y q hdate] at h
    unfold ninjasFetchSteps at h
    by_cases h404 : st = 404
    · rw [if_pos h404] at h
      exact Except.noConfusion h
    · rw [if_neg h404] at h
      by_cases hok : (!(statusOk st)) = true
      · rw [if_pos hok] at h
        exact Except.noConfusion h
      · rw [if_neg hok] at h
        cases bod with
        | none => exact Except.noConfusion h
        | some data =>
          have h2 : (if (!(jsTruthy (ninjasSelectRaw data)) ||
                !(typeofObject (ninjasSelectRaw data))) = true then
              (Except.error (.notFound symbol callDate "API Ninjas") :
                Except TranscriptError Transcript)
            else
              match extractNinjasText (ninjasSelectRaw data) symbol y q with
              | Except.error e => Except.error e
              | Except.ok text => Except.ok
                  { symbol := jsUpper symbol, callDate := callDate, text := text,
                    raw := ninjasSelectRaw data }) = Except.ok t := h
          by_cases htr : (!(jsTruthy (ninjasSelectRaw data)) ||
              !(typeofObject (ninjasSelectRaw data))) = true
          · rw [if_pos htr] at h2
            exact Except.noConfusion h2
          · rw [if_neg htr] at h2
            cases hx : extractNinjasText (ninjasSelectRaw data) symbol y q with
            | error e =>
              rw [hx] at h2
              exact Except.noConfusion h2
            | ok text =>
              rw [hx] at h2
              have h3 : Except.ok (Transcript.mk (jsUpper symbol) callDate text
                  (ninjasSelectRaw data)) = Except.ok t := h2
              have h4 := Except.ok.inj h3
              rw [← h4]
              exact extractNinjasText_ok_ne _ _ _ _ _ hx
  · intro body hbody hok hcr
    cases hbody
    rw [ninjasFetchTranscript_eq symbol callDate _ y q hdate]
    have h404 : st ≠ 404 := by
      intro hx
      rw [hx] at hok
      have hd : ¬ (statusOk 404 = true) := by decide
      exact absurd hok hd
    have hE : ninjasFetchSteps symbol callDate ⟨st, some body⟩ y q =
        (if (!(jsTruthy (ninjasSelectRaw body)) ||
            !(typeofObject (ninjasSelectRaw body))) = true then
          (Except.error (.notFound symbol callDate "API Ninjas") :
            Except TranscriptError Transcript)
        else
          match extractNinjasText (ninjasSelectRaw body) symbol y q with
          | Except.error e => Except.error e
          | Except.ok text => Except.ok
              { symbol := jsUpper symbol, callDate := callDate, text := text,
                raw := ninjasSelectRaw body }) := by
      unfold ninjasFetchSteps
      rw [if_neg h404, if_neg (by simp [hok])]
    rw [hE]
    by_cases htr : (!(jsTruthy (ninjasSelectRaw body)) ||
        !(typeofObject (ninjasSelectRaw body))) = true
    · rw [if_pos htr]
      exact Or.inr (Or.inl rfl)
    · rw [if_neg htr]
      rcases extractNinjasText_cases (ninjasSelectRaw body) symbol y q hcr with
        ⟨t, ht, htne⟩ | herr
      · refine Or.inl ⟨Transcript.mk (jsUpper symbol) callDate t (ninjasSelectRaw body),
          ?_, htne⟩
        rw [ht]
      · rw [herr]
        exact Or.inr (Or.inr rfl)

/-- Witness for C4: an upstream 404 produces the dedicated not-found
error carrying the symbol, the call date and the provider name. -/
theorem ninjas_notfound_semantics_witness :
    ninjasFetchTranscript "NVDA" "2026-02-25" { status := 404, body := none } =
      .error (.notFound "NVDA" "2026-02-25" "API Ninjas") :=
  (ninjas_notfound_semantics "NVDA" "2026-02-25" { status := 404, body := none }
    2025 4 rfl).1 rfl

end EarningsSpec
